import Mathlib

/-
Shallow embedding of the Unit of Work coordinator in src/tracker/uow.go
(the db and tracker package variants in src/main.go and src/unnamed/part_001
carry the same Commit/Clear/HasPending logic verbatim).

Entities are abstract for the coordinator, so they are modelled as naturals.
Store errors are likewise abstract values, modelled as naturals.  The store is
modelled as a function from each issued operation to an optional error: this
captures any deterministic behaviour of the underlying store inside one
transaction attempt.  A deferred Operation closure is modelled by the list of
store operations it issues through its Tx handle plus the value it returns
once its own operations have all succeeded.  Hooks are zero-argument
callbacks; the coordinator only runs them, so a hook is modelled by an
identity plus whether its body panics (the Go code wraps every hook call in
a function with a recover, discarding the panic).
-/

abbrev Entity := Nat

abbrev Err := Nat

/-- The three operations a Tx handle offers: Create, Save (upsert), Delete.
Mirrors the Tx interface of src/tracker/uow.go lines 14-18. -/
inductive StoreEvent where
| create (e : Entity)
| save (e : Entity)
| delete (e : Entity)
deriving DecidableEq

/-- Behaviour of the underlying store during one transaction attempt:
for each issued operation, either success (none) or an error value. -/
abbrev Store := StoreEvent → Option Err

/-- A deferred operation (the Operation closure of uow.go line 28): the store
operations it issues through its Tx handle, in order, and the value it
returns when all of them succeed (none models returning nil). -/
structure Operation where
  events : List StoreEvent
  result : Option Err
deriving DecidableEq

/-- A registered callback: an identity and whether its body panics when run.
The Go code wraps each call in a recover, so a panic is swallowed. -/
structure Hook where
  id : Nat
  panics : Bool
deriving DecidableEq

/-- The mutable state of a UnitOfWork (uow.go lines 35-48): the four
pending-change lists plus the two hook lists.  Queueing appends; the
sync.Mutex serialises the appends, so the state between operations is
exactly these six lists. -/
structure UnitOfWork where
  ops : List Operation
  toCreate : List Entity
  toUpdate : List Entity
  toDelete : List Entity
  afterCommit : List Hook
  afterRollback : List Hook
deriving DecidableEq

/-- The state of a freshly constructed UnitOfWork: all lists empty. -/
def emptyUoW : UnitOfWork :=
  ⟨[], [], [], [], [], []⟩

/-- Do (uow.go lines 62-66): append a deferred operation. -/
def UnitOfWork.Do (u : UnitOfWork) (op : Operation) : UnitOfWork :=
  { u with ops := u.ops ++ [op] }

/-- Add (uow.go lines 69-73): append an entity to the create list. -/
def UnitOfWork.Add (u : UnitOfWork) (e : Entity) : UnitOfWork :=
  { u with toCreate := u.toCreate ++ [e] }

/-- Update (uow.go lines 76-80): append an entity to the update list. -/
def UnitOfWork.Update (u : UnitOfWork) (e : Entity) : UnitOfWork :=
  { u with toUpdate := u.toUpdate ++ [e] }

/-- RegisterDelete (uow.go lines 83-87): append an entity to the delete list. -/
def UnitOfWork.RegisterDelete (u : UnitOfWork) (e : Entity) : UnitOfWork :=
  { u with toDelete := u.toDelete ++ [e] }

/-- AfterCommit (uow.go lines 90-94): register a post-commit callback. -/
def UnitOfWork.AfterCommit (u : UnitOfWork) (h : Hook) : UnitOfWork :=
  { u with afterCommit := u.afterCommit ++ [h] }

/-- AfterRollback (uow.go lines 97-101): register a post-rollback callback. -/
def UnitOfWork.AfterRollback (u : UnitOfWork) (h : Hook) : UnitOfWork :=
  { u with afterRollback := u.afterRollback ++ [h] }

/-- Clear (uow.go lines 166-175): set all six lists to nil. -/
def UnitOfWork.Clear (u : UnitOfWork) : UnitOfWork :=
  ⟨[], [], [], [], [], []⟩

/-- HasPending (uow.go lines 178-182): len(ops) > 0 or len(toCreate) > 0 or
len(toUpdate) > 0 or len(toDelete) > 0.  Note the Go code does not look at
the hook lists. -/
def UnitOfWork.HasPending (u : UnitOfWork) : Bool :=
  decide (u.ops.length > 0) || decide (u.toCreate.length > 0) ||
    decide (u.toUpdate.length > 0) || decide (u.toDelete.length > 0)

/-- One of the stage loops of the transaction body (uow.go lines 123-139):
issue each operation to the store in order, returning on the first error.
The first component records the operations actually issued. -/
def runEvents (store : Store) : List StoreEvent → List StoreEvent × Option Err
| [] => ([], none)
| ev :: rest =>
  match store ev with
  | some e => ([ev], some e)
  | none =>
    let r := runEvents store rest
    (ev :: r.1, r.2)

/-- Invoking one deferred operation with the transaction handle (uow.go
line 142): its issued store operations run in order; if one fails the
closure returns that error, otherwise it returns its own result. -/
def runOp (store : Store) (op : Operation) : List StoreEvent × Option Err :=
  let r := runEvents store op.events
  match r.2 with
  | some e => (r.1, some e)
  | none => (r.1, op.result)

/-- Stage 4 of the transaction body (uow.go lines 141-145): invoke each
deferred operation in order, returning on the first error. -/
def runOps (store : Store) : List Operation → List StoreEvent × Option Err
| [] => ([], none)
| op :: rest =>
  let r := runOp store op
  match r.2 with
  | some e => (r.1, some e)
  | none =>
    let r2 := runOps store rest
    (r.1 ++ r2.1, r2.2)

/-- The transaction body of Commit (uow.go lines 121-147): creates, then
updates via Save, then deletes, then deferred operations; the first error
aborts everything after it and becomes the transaction error. -/
def txBody (store : Store) (creates updates deletes : List Entity)
    (deferredOps : List Operation) : List StoreEvent × Option Err :=
  let s1 := runEvents store (creates.map StoreEvent.create)
  match s1.2 with
  | some e => (s1.1, some e)
  | none =>
    let s2 := runEvents store (updates.map StoreEvent.save)
    match s2.2 with
    | some e => (s1.1 ++ s2.1, some e)
    | none =>
      let s3 := runEvents store (deletes.map StoreEvent.delete)
      match s3.2 with
      | some e => (s1.1 ++ s2.1 ++ s3.1, some e)
      | none =>
        let s4 := runOps store deferredOps
        (s1.1 ++ s2.1 ++ s3.1 ++ s4.1, s4.2)

/-- Running a hook list (uow.go lines 150-153 and 159-161): each callback is
invoked inside a wrapper with a recover, so every callback in the list runs
exactly once in order, whether or not earlier ones panicked.  The record
pairs each hook with whether its invocation panicked (and was swallowed). -/
def runHooks : List Hook → List (Hook × Bool)
| [] => []
| h :: rest => (h, h.panics) :: runHooks rest

/-- Observable outcome of one Commit call: the returned error (none = nil),
the trace of operations issued to the store, the after-commit and
after-rollback invocation records, and the state of the UnitOfWork once
Commit returns. -/
structure CommitResult where
  result : Option Err
  trace : List StoreEvent
  commitRuns : List (Hook × Bool)
  rollbackRuns : List (Hook × Bool)
  final : UnitOfWork
deriving DecidableEq

/-- Fieldwise concatenation: the effect of a batch of queueing calls landing
on a state (each Go queueing method appends under the lock). -/
def appendU (u v : UnitOfWork) : UnitOfWork :=
  ⟨u.ops ++ v.ops, u.toCreate ++ v.toCreate, u.toUpdate ++ v.toUpdate,
    u.toDelete ++ v.toDelete, u.afterCommit ++ v.afterCommit,
    u.afterRollback ++ v.afterRollback⟩

/-- Commit (uow.go lines 110-163).  The snapshot (lines 111-119) copies the
six lists of u under the lock; during models everything queued concurrently
between the snapshot and the end of the transaction (for example by a
deferred operation calling back into the UnitOfWork), which in Go lands in
the live lists but not in the snapshot.  On transaction error the rollback
hooks of the snapshot run and the live lists are left alone (snapshot
content plus the items queued during the attempt).  On success u.Clear()
wipes the live lists - including anything queued during the attempt - and
then the commit hooks of the snapshot run. -/
def UnitOfWork.Commit (u : UnitOfWork) (store : Store) (during : UnitOfWork) :
    CommitResult :=
  let deferredOps := u.ops
  let creates := u.toCreate
  let updates := u.toUpdate
  let deletes := u.toDelete
  let afterCommitSnap := u.afterCommit
  let afterRollbackSnap := u.afterRollback
  let tx := txBody store creates updates deletes deferredOps
  let live := appendU u during
  match tx.2 with
  | some e =>
    { result := some e, trace := tx.1, commitRuns := [],
      rollbackRuns := runHooks afterRollbackSnap, final := live }
  | none =>
    { result := none, trace := tx.1, commitRuns := runHooks afterCommitSnap,
      rollbackRuns := [], final := live.Clear }

/-- A queueing or registration call on a UnitOfWork, named after the Go
methods. -/
inductive Call where
| Add (e : Entity)
| Update (e : Entity)
| RegisterDelete (e : Entity)
| Do (op : Operation)
| AfterCommit (h : Hook)
| AfterRollback (h : Hook)
deriving DecidableEq

/-- The effect of one call on the state. -/
def applyCall (u : UnitOfWork) : Call → UnitOfWork
| Call.Add e => u.Add e
| Call.Update e => u.Update e
| Call.RegisterDelete e => u.RegisterDelete e
| Call.Do op => u.Do op
| Call.AfterCommit h => u.AfterCommit h
| Call.AfterRollback h => u.AfterRollback h

/-- The state after a sequence of calls. -/
def applyCalls (u : UnitOfWork) : List Call → UnitOfWork
| [] => u
| c :: cs => applyCalls (applyCall u c) cs

/-- The entities passed to Add, in call order. -/
def queuedCreates : List Call → List Entity
| [] => []
| Call.Add e :: rest => e :: queuedCreates rest
| _ :: rest => queuedCreates rest

/-- The entities passed to Update, in call order. -/
def queuedUpdates : List Call → List Entity
| [] => []
| Call.Update e :: rest => e :: queuedUpdates rest
| _ :: rest => queuedUpdates rest

/-- The entities passed to RegisterDelete, in call order. -/
def queuedDeletes : List Call → List Entity
| [] => []
| Call.RegisterDelete e :: rest => e :: queuedDeletes rest
| _ :: rest => queuedDeletes rest

/-- The operations passed to Do, in call order. -/
def queuedOps : List Call → List Operation
| [] => []
| Call.Do op :: rest => op :: queuedOps rest
| _ :: rest => queuedOps rest

/-- The hooks passed to AfterCommit, in call order. -/
def queuedCommitHooks : List Call → List Hook
| [] => []
| Call.AfterCommit h :: rest => h :: queuedCommitHooks rest
| _ :: rest => queuedCommitHooks rest

/-- The hooks passed to AfterRollback, in call order. -/
def queuedRollbackHooks : List Call → List Hook
| [] => []
| Call.AfterRollback h :: rest => h :: queuedRollbackHooks rest
| _ :: rest => queuedRollbackHooks rest

/-- The queued work of a state viewed as a single list of uniform units, in
the order the transaction body applies them: each create, update and delete
is a one-operation unit, followed by the deferred operations. -/
def unitsOf (u : UnitOfWork) : List Operation :=
  u.toCreate.map (fun e => ⟨[StoreEvent.create e], none⟩) ++
    u.toUpdate.map (fun e => ⟨[StoreEvent.save e], none⟩) ++
    u.toDelete.map (fun e => ⟨[StoreEvent.delete e], none⟩) ++ u.ops

/-- An open GORM root connection handle, abstract for the coordinator. -/
abbrev GormHandle := Unit

/-- What gorm.Open hands back: a root handle (none models a nil gorm.DB
pointer) and an optional open error. -/
structure OpenResult where
  handle : Option GormHandle
  openErr : Option Err
deriving DecidableEq

/-- A UnitOfWork together with its root handle (uow.go lines 35-36). -/
structure RootedUoW where
  root : Option GormHandle
  state : UnitOfWork
deriving DecidableEq

/-- New (uow.go lines 52-56): gormDB, _ := gorm.Open(...).  The open error is
discarded on the floor and the returned UnitOfWork holds whatever handle
came back, possibly nil.  New itself is a total function: it always yields
a UnitOfWork value and has no error in its result type. -/
def New (r : OpenResult) : RootedUoW :=
  { root := r.handle, state := emptyUoW }

/-- Outcome of a method that uses the root handle: the underlying
computation, or a nil-pointer dereference panic when root is nil. -/
inductive Run (α : Type) where
| ok (a : α)
| nilPanic
deriving DecidableEq

/-- Commit seen from the root handle (uow.go line 121, u.root.WithContext):
a nil root is dereferenced before anything reaches the store. -/
def RootedUoW.CommitRoot (u : RootedUoW) (store : Store)
    (during : UnitOfWork) : Run CommitResult :=
  match u.root with
  | none => Run.nilPanic
  | some _ => Run.ok (u.state.Commit store during)

/-- First (uow.go lines 185-187, u.root.WithContext): dereferences the root;
the query itself is outside the coordinator and abstracted to Unit. -/
def RootedUoW.FirstRoot (u : RootedUoW) : Run Unit :=
  match u.root with
  | none => Run.nilPanic
  | some _ => Run.ok ()

/-- PreloadFirst (uow.go lines 190-196, u.root.WithContext): dereferences
the root. -/
def RootedUoW.PreloadFirstRoot (u : RootedUoW) : Run Unit :=
  match u.root with
  | none => Run.nilPanic
  | some _ => Run.ok ()

/-- AutoMigrate (uow.go line 59, u.root.AutoMigrate): dereferences the root. -/
def RootedUoW.AutoMigrateRoot (u : RootedUoW) : Run Unit :=
  match u.root with
  | none => Run.nilPanic
  | some _ => Run.ok ()

theorem runEvents_ok (store : Store) (evs : List StoreEvent)
    (h : (runEvents store evs).2 = none) : (runEvents store evs).1 = evs := by
  induction evs with
  | nil => rfl
  | cons ev rest ih =>
    simp only [runEvents] at h ⊢
    cases hst : store ev with
    | some e => simp [hst] at h
    | none =>
      simp only [hst] at h ⊢
      simp at h ⊢
      exact ih h

theorem runOp_ok (store : Store) (op : Operation)
    (h : (runOp store op).2 = none) : (runOp store op).1 = op.events := by
  simp only [runOp] at h ⊢
  cases hr : (runEvents store op.events).2 with
  | some e => simp [hr] at h
  | none =>
    simp only [hr]
    simpa using runEvents_ok store op.events hr

theorem runOps_ok (store : Store) (ops : List Operation)
    (h : (runOps store ops).2 = none) :
    (runOps store ops).1 = ops.flatMap Operation.events := by
  induction ops with
  | nil => rfl
  | cons op rest ih =>
    simp only [runOps] at h ⊢
    cases hr : (runOp store op).2 with
    | some e => simp [hr] at h
    | none =>
      simp only [hr] at h ⊢
      simp only [List.flatMap_cons]
      rw [runOp_ok store op hr, ih h]

theorem txBody_ok (store : Store) (creates updates deletes : List Entity)
    (deferredOps : List Operation)
    (h : (txBody store creates updates deletes deferredOps).2 = none) :
    (txBody store creates updates deletes deferredOps).1 =
      creates.map StoreEvent.create ++ updates.map StoreEvent.save ++
        deletes.map StoreEvent.delete ++ deferredOps.flatMap Operation.events := by
  simp only [txBody] at h ⊢
  cases h1 : (runEvents store (creates.map StoreEvent.create)).2 with
  | some e => simp [h1] at h
  | none =>
    simp only [h1] at h ⊢
    cases h2 : (runEvents store (updates.map StoreEvent.save)).2 with
    | some e => simp [h2] at h
    | none =>
      simp only [h2] at h ⊢
      cases h3 : (runEvents store (deletes.map StoreEvent.delete)).2 with
      | some e => simp [h3] at h
      | none =>
        simp only [h3] at h ⊢
        rw [runEvents_ok store _ h1, runEvents_ok store _ h2,
          runEvents_ok store _ h3, runOps_ok store _ h]

theorem runOps_append_err (store : Store) (a b : List Operation) (e : Err)
    (h : (runOps store a).2 = some e) :
    runOps store (a ++ b) = runOps store a := by
  induction a with
  | nil => simp [runOps] at h
  | cons op rest ih =>
    have hc : (op :: rest) ++ b = op :: (rest ++ b) := rfl
    rw [hc]
    simp only [runOps] at h ⊢
    cases hr : (runOp store op).2 with
    | some e2 => simp only [hr]
    | none =>
      simp only [hr] at h ⊢
      rw [ih h]

theorem runOps_append_ok (store : Store) (a b : List Operation)
    (h : (runOps store a).2 = none) :
    runOps store (a ++ b) =
      ((runOps store a).1 ++ (runOps store b).1, (runOps store b).2) := by
  induction a with
  | nil => simp [runOps]
  | cons op rest ih =>
    have hc : (op :: rest) ++ b = op :: (rest ++ b) := rfl
    rw [hc]
    simp only [runOps] at h ⊢
    cases hr : (runOp store op).2 with
    | some e => simp [hr] at h
    | none =>
      simp only [hr] at h ⊢
      rw [ih h]
      simp [List.append_assoc]

theorem runOps_units (store : Store) (evs : List StoreEvent) :
    runOps store (evs.map (fun ev => ⟨[ev], none⟩)) = runEvents store evs := by
  induction evs with
  | nil => rfl
  | cons ev rest ih =>
    simp only [List.map_cons, runOps, runEvents]
    cases hst : store ev with
    | some e => simp [runOp, runEvents, hst]
    | none => simp [runOp, runEvents, hst, ih]

theorem txBody_eq_runOps (store : Store) (cs us ds : List Entity)
    (ops : List Operation) :
    txBody store cs us ds ops =
      runOps store (cs.map (fun e => ⟨[StoreEvent.create e], none⟩) ++
        (us.map (fun e => ⟨[StoreEvent.save e], none⟩) ++
          (ds.map (fun e => ⟨[StoreEvent.delete e], none⟩) ++ ops))) := by
  have hA : cs.map (fun e => (⟨[StoreEvent.create e], none⟩ : Operation)) =
      (cs.map StoreEvent.create).map (fun ev => ⟨[ev], none⟩) := by
    simp [List.map_map]
  have hB : us.map (fun e => (⟨[StoreEvent.save e], none⟩ : Operation)) =
      (us.map StoreEvent.save).map (fun ev => ⟨[ev], none⟩) := by
    simp [List.map_map]
  have hC : ds.map (fun e => (⟨[StoreEvent.delete e], none⟩ : Operation)) =
      (ds.map StoreEvent.delete).map (fun ev => ⟨[ev], none⟩) := by
    simp [List.map_map]
  rw [hA, hB, hC]
  simp only [txBody]
  cases h1 : (runEvents store (cs.map StoreEvent.create)).2 with
  | some e =>
    have hA1 : (runOps store ((cs.map StoreEvent.create).map
        (fun ev => (⟨[ev], none⟩ : Operation)))).2 = some e := by
      rw [runOps_units]; exact h1
    rw [runOps_append_err store _ _ e hA1, runOps_units]
    simp only [h1]
    exact Prod.ext rfl h1.symm
  | none =>
    have hA1 : (runOps store ((cs.map StoreEvent.create).map
        (fun ev => (⟨[ev], none⟩ : Operation)))).2 = none := by
      rw [runOps_units]; exact h1
    rw [runOps_append_ok store _ _ hA1, runOps_units]
    simp only [h1]
    cases h2 : (runEvents store (us.map StoreEvent.save)).2 with
    | some e =>
      have hB1 : (runOps store ((us.map StoreEvent.save).map
          (fun ev => (⟨[ev], none⟩ : Operation)))).2 = some e := by
        rw [runOps_units]; exact h2
      rw [runOps_append_err store _ _ e hB1, runOps_units]
      simp only [h2]
    | none =>
      have hB1 : (runOps store ((us.map StoreEvent.save).map
          (fun ev => (⟨[ev], none⟩ : Operation)))).2 = none := by
        rw [runOps_units]; exact h2
      rw [runOps_append_ok store _ _ hB1, runOps_units]
      simp only [h2]
      cases h3 : (runEvents store (ds.map StoreEvent.delete)).2 with
      | some e =>
        have hC1 : (runOps store ((ds.map StoreEvent.delete).map
            (fun ev => (⟨[ev], none⟩ : Operation)))).2 = some e := by
          rw [runOps_units]; exact h3
        rw [runOps_append_err store _ _ e hC1, runOps_units]
        simp only [h3]
        simp [List.append_assoc]
      | none =>
        have hC1 : (runOps store ((ds.map StoreEvent.delete).map
            (fun ev => (⟨[ev], none⟩ : Operation)))).2 = none := by
          rw [runOps_units]; exact h3
        rw [runOps_append_ok store _ _ hC1, runOps_units]
        simp only [h3]
        simp [List.append_assoc]

theorem runOps_err (store : Store) (ops : List Operation) (e : Err)
    (h : (runOps store ops).2 = some e) :
    ∃ pre bad rest, ops = pre ++ bad :: rest ∧
      (∀ x ∈ pre, (runOp store x).2 = none) ∧
      (runOp store bad).2 = some e ∧
      (runOps store ops).1 =
        pre.flatMap (fun x => (runOp store x).1) ++ (runOp store bad).1 := by
  induction ops with
  | nil => simp [runOps] at h
  | cons op rest ih =>
    simp only [runOps] at h ⊢
    cases hr : (runOp store op).2 with
    | some e2 =>
      simp only [hr] at h ⊢
      simp at h
      subst h
      exact ⟨[], op, rest, rfl, by simp, hr, by simp⟩
    | none =>
      simp only [hr] at h ⊢
      obtain ⟨pre, bad, rest2, hsplit, hpre, hbad, htr⟩ := ih h
      refine ⟨op :: pre, bad, rest2, by simp [hsplit], ?_, hbad, ?_⟩
      · intro x hx
        rcases List.mem_cons.mp hx with h1 | h1
        · subst h1; exact hr
        · exact hpre x h1
      · simp only [List.flatMap_cons]
        simp [htr, List.append_assoc]

theorem runHooks_eq (hs : List Hook) :
    runHooks hs = hs.map fun h => (h, h.panics) := by
  induction hs with
  | nil => rfl
  | cons h rest ih => simp [runHooks, ih]

theorem runHooks_fst (hs : List Hook) :
    (runHooks hs).map Prod.fst = hs := by
  induction hs with
  | nil => rfl
  | cons h rest ih => simp [runHooks, ih]

theorem appendU_empty (u : UnitOfWork) : appendU u emptyUoW = u := by
  simp [appendU, emptyUoW]

theorem unitsOf_grouped (u : UnitOfWork) :
    unitsOf u = u.toCreate.map (fun e => ⟨[StoreEvent.create e], none⟩) ++
      (u.toUpdate.map (fun e => ⟨[StoreEvent.save e], none⟩) ++
        (u.toDelete.map (fun e => ⟨[StoreEvent.delete e], none⟩) ++ u.ops)) := by
  simp [unitsOf, List.append_assoc]

theorem txBody_eq_units (store : Store) (u : UnitOfWork) :
    txBody store u.toCreate u.toUpdate u.toDelete u.ops =
      runOps store (unitsOf u) := by
  rw [unitsOf_grouped]
  exact txBody_eq_runOps store u.toCreate u.toUpdate u.toDelete u.ops

theorem Commit_eq_err (u : UnitOfWork) (store : Store) (during : UnitOfWork)
    (e : Err)
    (h : (txBody store u.toCreate u.toUpdate u.toDelete u.ops).2 = some e) :
    u.Commit store during =
      ⟨some e, (txBody store u.toCreate u.toUpdate u.toDelete u.ops).1, [],
        runHooks u.afterRollback, appendU u during⟩ := by
  simp only [UnitOfWork.Commit, h]

theorem Commit_eq_ok (u : UnitOfWork) (store : Store) (during : UnitOfWork)
    (h : (txBody store u.toCreate u.toUpdate u.toDelete u.ops).2 = none) :
    u.Commit store during =
      ⟨none, (txBody store u.toCreate u.toUpdate u.toDelete u.ops).1,
        runHooks u.afterCommit, [], emptyUoW⟩ := by
  simp only [UnitOfWork.Commit, h]
  rfl

theorem Commit_result_eq (u : UnitOfWork) (store : Store)
    (during : UnitOfWork) :
    (u.Commit store during).result =
      (txBody store u.toCreate u.toUpdate u.toDelete u.ops).2 := by
  cases h : (txBody store u.toCreate u.toUpdate u.toDelete u.ops).2 with
  | some e => rw [Commit_eq_err u store during e h]
  | none => rw [Commit_eq_ok u store during h]

theorem Commit_trace_eq (u : UnitOfWork) (store : Store)
    (during : UnitOfWork) :
    (u.Commit store during).trace =
      (txBody store u.toCreate u.toUpdate u.toDelete u.ops).1 := by
  cases h : (txBody store u.toCreate u.toUpdate u.toDelete u.ops).2 with
  | some e => rw [Commit_eq_err u store during e h]
  | none => rw [Commit_eq_ok u store during h]

theorem applyCalls_toCreate (cs : List Call) : ∀ u : UnitOfWork,
    (applyCalls u cs).toCreate = u.toCreate ++ queuedCreates cs := by
  induction cs with
  | nil => intro u; simp [applyCalls, queuedCreates]
  | cons c cs ih =>
    intro u
    rw [show applyCalls u (c :: cs) = applyCalls (applyCall u c) cs from rfl,
      ih]
    cases c <;>
      simp [applyCall, UnitOfWork.Add, UnitOfWork.Update,
        UnitOfWork.RegisterDelete, UnitOfWork.Do, UnitOfWork.AfterCommit,
        UnitOfWork.AfterRollback, queuedCreates]

theorem applyCalls_toUpdate (cs : List Call) : ∀ u : UnitOfWork,
    (applyCalls u cs).toUpdate = u.toUpdate ++ queuedUpdates cs := by
  induction cs with
  | nil => intro u; simp [applyCalls, queuedUpdates]
  | cons c cs ih =>
    intro u
    rw [show applyCalls u (c :: cs) = applyCalls (applyCall u c) cs from rfl,
      ih]
    cases c <;>
      simp [applyCall, UnitOfWork.Add, UnitOfWork.Update,
        UnitOfWork.RegisterDelete, UnitOfWork.Do, UnitOfWork.AfterCommit,
        UnitOfWork.AfterRollback, queuedUpdates]

theorem applyCalls_toDelete (cs : List Call) : ∀ u : UnitOfWork,
    (applyCalls u cs).toDelete = u.toDelete ++ queuedDeletes cs := by
  induction cs with
  | nil => intro u; simp [applyCalls, queuedDeletes]
  | cons c cs ih =>
    intro u
    rw [show applyCalls u (c :: cs) = applyCalls (applyCall u c) cs from rfl,
      ih]
    cases c <;>
      simp [applyCall, UnitOfWork.Add, UnitOfWork.Update,
        UnitOfWork.RegisterDelete, UnitOfWork.Do, UnitOfWork.AfterCommit,
        UnitOfWork.AfterRollback, queuedDeletes]

theorem applyCalls_ops (cs : List Call) : ∀ u : UnitOfWork,
    (applyCalls u cs).ops = u.ops ++ queuedOps cs := by
  induction cs with
  | nil => intro u; simp [applyCalls, queuedOps]
  | cons c cs ih =>
    intro u
    rw [show applyCalls u (c :: cs) = applyCalls (applyCall u c) cs from rfl,
      ih]
    cases c <;>
      simp [applyCall, UnitOfWork.Add, UnitOfWork.Update,
        UnitOfWork.RegisterDelete, UnitOfWork.Do, UnitOfWork.AfterCommit,
        UnitOfWork.AfterRollback, queuedOps]

theorem applyCalls_afterCommit (cs : List Call) : ∀ u : UnitOfWork,
    (applyCalls u cs).afterCommit = u.afterCommit ++ queuedCommitHooks cs := by
  induction cs with
  | nil => intro u; simp [applyCalls, queuedCommitHooks]
  | cons c cs ih =>
    intro u
    rw [show applyCalls u (c :: cs) = applyCalls (applyCall u c) cs from rfl,
      ih]
    cases c <;>
      simp [applyCall, UnitOfWork.Add, UnitOfWork.Update,
        UnitOfWork.RegisterDelete, UnitOfWork.Do, UnitOfWork.AfterCommit,
        UnitOfWork.AfterRollback, queuedCommitHooks]

theorem applyCalls_afterRollback (cs : List Call) : ∀ u : UnitOfWork,
    (applyCalls u cs).afterRollback = u.afterRollback ++ queuedRollbackHooks cs := by
  induction cs with
  | nil => intro u; simp [applyCalls, queuedRollbackHooks]
  | cons c cs ih =>
    intro u
    rw [show applyCalls u (c :: cs) = applyCalls (applyCall u c) cs from rfl,
      ih]
    cases c <;>
      simp [applyCall, UnitOfWork.Add, UnitOfWork.Update,
        UnitOfWork.RegisterDelete, UnitOfWork.Do, UnitOfWork.AfterCommit,
        UnitOfWork.AfterRollback, queuedRollbackHooks]

/-- C1: for every sequence of Add, Update, RegisterDelete and Do calls on one
UnitOfWork followed by a Commit whose transaction succeeds, the transaction
body issues to the store exactly the queued operations, each exactly once,
in the fixed order: all creates in queue order, then all updates in queue
order (via Save), then all deletes in queue order, then all deferred
operations in queue order. -/
theorem C1_commit_order (cs : List Call) (store : Store)
    (h : ((applyCalls emptyUoW cs).Commit store emptyUoW).result = none) :
    ((applyCalls emptyUoW cs).Commit store emptyUoW).trace =
      (queuedCreates cs).map StoreEvent.create ++
        (queuedUpdates cs).map StoreEvent.save ++
        (queuedDeletes cs).map StoreEvent.delete ++
        (queuedOps cs).flatMap Operation.events := by
  rw [Commit_result_eq] at h
  rw [Commit_trace_eq, txBody_ok store _ _ _ _ h]
  rw [applyCalls_toCreate, applyCalls_toUpdate, applyCalls_toDelete,
    applyCalls_ops]
  simp [emptyUoW]

/-- Witness for C1 at a concrete call sequence and an always-succeeding
store. -/
theorem C1_commit_order_witness :
    ((applyCalls emptyUoW [Call.Add 1, Call.Do ⟨[StoreEvent.create 5], none⟩,
        Call.Update 2, Call.RegisterDelete 3]).Commit (fun _ => none)
        emptyUoW).trace =
      [StoreEvent.create 1, StoreEvent.save 2, StoreEvent.delete 3,
        StoreEvent.create 5] :=
  C1_commit_order [Call.Add 1, Call.Do ⟨[StoreEvent.create 5], none⟩,
    Call.Update 2, Call.RegisterDelete 3] (fun _ => none) (by decide)

/-- C2 counterexample: entity 7 is queued (by a concurrent caller or a
deferred operation) after the snapshot of a commit that succeeds; the commit
does not apply it (empty trace), yet it does NOT remain pending afterwards:
the success path of Commit calls Clear(), which wipes it together with
everything else. -/
theorem C2_counterexample :
    ((emptyUoW.Commit (fun _ => none) ⟨[], [7], [], [], [], []⟩).result
        = none) ∧
    ((emptyUoW.Commit (fun _ => none) ⟨[], [7], [], [], [], []⟩).trace
        = []) ∧
    ¬ (7 ∈ (emptyUoW.Commit (fun _ => none)
        ⟨[], [7], [], [], [], []⟩).final.toCreate) := by
  decide

/-- C2 amended: a commit attempt applies exactly its snapshot (items queued
after the snapshot are never issued to the store and do not affect the
outcome); after a failed commit the items queued during the attempt remain
pending together with the snapshot content, but after a successful commit
the final Clear() discards them along with everything else. -/
theorem C2_amended_snapshot (u : UnitOfWork) (store : Store)
    (during : UnitOfWork) :
    ((u.Commit store during).trace = (u.Commit store emptyUoW).trace) ∧
    ((u.Commit store during).result = (u.Commit store emptyUoW).result) ∧
    (∀ e : Err, (u.Commit store during).result = some e →
      (u.Commit store during).final = appendU u during) ∧
    ((u.Commit store during).result = none →
      (u.Commit store during).final = emptyUoW) := by
  cases h : (txBody store u.toCreate u.toUpdate u.toDelete u.ops).2 with
  | some e =>
    rw [Commit_eq_err u store during e h, Commit_eq_err u store emptyUoW e h]
    refine ⟨rfl, rfl, fun e2 _ => rfl, fun hn => by simp at hn⟩
  | none =>
    rw [Commit_eq_ok u store during h, Commit_eq_ok u store emptyUoW h]
    refine ⟨rfl, rfl, fun e2 he => by simp at he, fun _ => rfl⟩

/-- Witness for C2 amended at a concrete state, store and concurrent batch. -/
theorem C2_amended_snapshot_witness :
    ((UnitOfWork.mk [] [1] [] [] [] []).Commit (fun _ => none)
        ⟨[], [7], [], [], [], []⟩).result = none ∧
    ((UnitOfWork.mk [] [1] [] [] [] []).Commit (fun _ => none)
        ⟨[], [7], [], [], [], []⟩).final = emptyUoW :=
  ⟨by decide,
    (C2_amended_snapshot ⟨[], [1], [], [], [], []⟩ (fun _ => none)
      ⟨[], [7], [], [], [], []⟩).2.2.2 (by decide)⟩

/-- C3: after every Commit that returns nil, HasPending returns false and all
internal pending sequences are empty, just as after construction and after
an explicit Clear. -/
theorem C3_success_clears (u : UnitOfWork) (store : Store)
    (during : UnitOfWork)
    (h : (u.Commit store during).result = none) :
    ((u.Commit store during).final = emptyUoW) ∧
    ((u.Commit store during).final.HasPending = false) ∧
    (emptyUoW.HasPending = false) ∧
    (∀ v : UnitOfWork, v.Clear = emptyUoW ∧ v.Clear.HasPending = false) := by
  rw [Commit_result_eq] at h
  rw [Commit_eq_ok u store during h]
  exact ⟨rfl, rfl, rfl, fun v => ⟨rfl, rfl⟩⟩

/-- Witness for C3 at a concrete state and an always-succeeding store. -/
theorem C3_success_clears_witness :
    ((UnitOfWork.mk [] [1] [2] [3] [] []).Commit (fun _ => none)
        emptyUoW).final = emptyUoW ∧
    ((UnitOfWork.mk [] [1] [2] [3] [] []).Commit (fun _ => none)
        emptyUoW).final.HasPending = false :=
  ⟨(C3_success_clears ⟨[], [1], [2], [3], [], []⟩ (fun _ => none) emptyUoW
      (by decide)).1,
    (C3_success_clears ⟨[], [1], [2], [3], [], []⟩ (fun _ => none) emptyUoW
      (by decide)).2.1⟩

/-- C4: after every Commit whose transaction fails, the pending sequences
hold exactly the snapshot content followed by whatever was queued during the
attempt - nothing is removed or cleared - so with no concurrent queuing they
are unchanged from the snapshot, and HasPending reflects that content. -/
theorem C4_failure_retains (u : UnitOfWork) (store : Store)
    (during : UnitOfWork) (e : Err)
    (h : (u.Commit store during).result = some e) :
    ((u.Commit store during).final = appendU u during) ∧
    (during = emptyUoW → (u.Commit store during).final = u) ∧
    ((u.Commit store during).final.HasPending
        = (appendU u during).HasPending) := by
  rw [Commit_result_eq] at h
  rw [Commit_eq_err u store during e h]
  exact ⟨rfl, fun hd => by rw [hd, appendU_empty], rfl⟩

/-- Witness for C4 at a concrete failing store. -/
theorem C4_failure_retains_witness :
    ((UnitOfWork.mk [] [1] [] [] [] []).Commit
        (fun ev => if ev = StoreEvent.create 1 then some 9 else none)
        emptyUoW).final = ⟨[], [1], [], [], [], []⟩ :=
  ((C4_failure_retains ⟨[], [1], [], [], [], []⟩
      (fun ev => if ev = StoreEvent.create 1 then some 9 else none)
      emptyUoW 9 (by decide)).2.1) rfl

/-- C5: within the transaction body of Commit, the first queued operation of any
stage that returns an error aborts everything after it - the trace is
exactly the issued work of the successful units before it plus the begun
work of the failing unit - and Commit returns that store error to the caller
unchanged. -/
theorem C5_first_error_aborts (u : UnitOfWork) (store : Store)
    (during : UnitOfWork) (e : Err)
    (h : (u.Commit store during).result = some e) :
    ∃ pre bad rest, unitsOf u = pre ++ bad :: rest ∧
      (∀ x ∈ pre, (runOp store x).2 = none) ∧
      (runOp store bad).2 = some e ∧
      (u.Commit store during).trace =
        pre.flatMap (fun x => (runOp store x).1) ++ (runOp store bad).1 := by
  rw [Commit_result_eq, txBody_eq_units] at h
  rw [Commit_trace_eq, txBody_eq_units]
  exact runOps_err store (unitsOf u) e h

/-- Witness for C5: the second create fails with error 42, so the first
create succeeded, the failing unit returns 42, and the update stage is never
reached. -/
theorem C5_first_error_aborts_witness :
    ∃ pre bad rest,
      unitsOf ⟨[], [1, 2], [3], [], [], []⟩ = pre ++ bad :: rest ∧
      (∀ x ∈ pre,
        (runOp (fun ev => if ev = StoreEvent.create 2 then some 42 else none)
          x).2 = none) ∧
      (runOp (fun ev => if ev = StoreEvent.create 2 then some 42 else none)
        bad).2 = some 42 ∧
      ((UnitOfWork.mk [] [1, 2] [3] [] [] []).Commit
          (fun ev => if ev = StoreEvent.create 2 then some 42 else none)
          emptyUoW).trace =
        pre.flatMap (fun x =>
          (runOp (fun ev => if ev = StoreEvent.create 2 then some 42 else none)
            x).1) ++
        (runOp (fun ev => if ev = StoreEvent.create 2 then some 42 else none)
          bad).1 :=
  C5_first_error_aborts ⟨[], [1, 2], [3], [], [], []⟩
    (fun ev => if ev = StoreEvent.create 2 then some 42 else none)
    emptyUoW 42 (by decide)

/-- C6: hook dispatch is exclusive and ordered: on a successful Commit every
after-commit hook of the snapshot is invoked exactly once in registration
order and no after-rollback hook runs; on a failed Commit every
after-rollback hook of the snapshot is invoked exactly once in registration
order and no after-commit hook runs. -/
theorem C6_hook_dispatch (u : UnitOfWork) (store : Store)
    (during : UnitOfWork) :
    ((u.Commit store during).result = none →
      (u.Commit store during).commitRuns.map Prod.fst = u.afterCommit ∧
      (u.Commit store during).rollbackRuns = []) ∧
    (∀ e : Err, (u.Commit store during).result = some e →
      (u.Commit store during).rollbackRuns.map Prod.fst = u.afterRollback ∧
      (u.Commit store during).commitRuns = []) := by
  cases h : (txBody store u.toCreate u.toUpdate u.toDelete u.ops).2 with
  | some e =>
    rw [Commit_eq_err u store during e h]
    exact ⟨fun hn => by simp at hn,
      fun e2 he => ⟨runHooks_fst u.afterRollback, rfl⟩⟩
  | none =>
    rw [Commit_eq_ok u store during h]
    exact ⟨fun _ => ⟨runHooks_fst u.afterCommit, rfl⟩,
      fun e2 he => by simp at he⟩

/-- Witness for C6 on the success side with two registered commit hooks. -/
theorem C6_hook_dispatch_witness :
    ((UnitOfWork.mk [] [] [] [] [⟨1, false⟩, ⟨2, true⟩] [⟨3, false⟩]).Commit
        (fun _ => none) emptyUoW).commitRuns.map Prod.fst =
      [⟨1, false⟩, ⟨2, true⟩] ∧
    ((UnitOfWork.mk [] [] [] [] [⟨1, false⟩, ⟨2, true⟩] [⟨3, false⟩]).Commit
        (fun _ => none) emptyUoW).rollbackRuns = [] :=
  (C6_hook_dispatch ⟨[], [], [], [], [⟨1, false⟩, ⟨2, true⟩], [⟨3, false⟩]⟩
    (fun _ => none) emptyUoW).1 (by decide)

/-- C7: a hook that panics does not prevent any later hook in the same list
from being invoked - the invocation record is the whole snapshot list in
order, with each hook paired with its own panic flag - and hooks never
change the value Commit returns: the result equals the result of the same
commit with no hooks registered at all. -/
theorem C7_hook_isolation (u : UnitOfWork) (store : Store)
    (during : UnitOfWork) :
    ((u.Commit store during).result =
      ((UnitOfWork.mk u.ops u.toCreate u.toUpdate u.toDelete [] []).Commit
        store during).result) ∧
    ((u.Commit store during).result = none →
      (u.Commit store during).commitRuns =
        u.afterCommit.map fun h => (h, h.panics)) ∧
    (∀ e : Err, (u.Commit store during).result = some e →
      (u.Commit store during).rollbackRuns =
        u.afterRollback.map fun h => (h, h.panics)) := by
  have hres : (u.Commit store during).result =
      (txBody store u.toCreate u.toUpdate u.toDelete u.ops).2 :=
    Commit_result_eq u store during
  have hres2 : ((UnitOfWork.mk u.ops u.toCreate u.toUpdate u.toDelete
      [] []).Commit store during).result =
      (txBody store u.toCreate u.toUpdate u.toDelete u.ops).2 :=
    Commit_result_eq ⟨u.ops, u.toCreate, u.toUpdate, u.toDelete, [], []⟩
      store during
  refine ⟨hres.trans hres2.symm, ?_, ?_⟩
  · intro hn
    rw [hres] at hn
    rw [Commit_eq_ok u store during hn]
    exact runHooks_eq u.afterCommit
  · intro e he
    rw [hres] at he
    rw [Commit_eq_err u store during e he]
    exact runHooks_eq u.afterRollback

/-- Witness for C7: a panicking first hook does not stop the second, and the
result is nil either way. -/
theorem C7_hook_isolation_witness :
    ((UnitOfWork.mk [] [] [] [] [⟨1, true⟩, ⟨2, false⟩] []).Commit
        (fun _ => none) emptyUoW).result =
      ((UnitOfWork.mk [] [] [] [] [] []).Commit (fun _ => none)
        emptyUoW).result ∧
    ((UnitOfWork.mk [] [] [] [] [⟨1, true⟩, ⟨2, false⟩] []).Commit
        (fun _ => none) emptyUoW).commitRuns =
      [(⟨1, true⟩, true), (⟨2, false⟩, false)] :=
  ⟨(C7_hook_isolation ⟨[], [], [], [], [⟨1, true⟩, ⟨2, false⟩], []⟩
      (fun _ => none) emptyUoW).1,
    (C7_hook_isolation ⟨[], [], [], [], [⟨1, true⟩, ⟨2, false⟩], []⟩
      (fun _ => none) emptyUoW).2.1 (by decide)⟩

/-- C8 counterexample: a UnitOfWork whose only pending content is a
registered after-commit hook.  The claim says HasPending is true whenever
any of the five sequences, the hook lists included, is non-empty; the code
checks only the four change lists and returns false here. -/
theorem C8_counterexample :
    (UnitOfWork.mk [] [] [] [] [⟨1, false⟩] []).afterCommit ≠ [] ∧
    (UnitOfWork.mk [] [] [] [] [⟨1, false⟩] []).HasPending = false := by
  decide

/-- C8 amended: HasPending returns true exactly when one of the four
pending-change sequences (deferred operations, creates, updates, deletes)
is non-empty; the two hook lists are not consulted, so hook registrations
alone leave HasPending false. -/
theorem C8_amended_hasPending (u : UnitOfWork) :
    (u.HasPending = true ↔
      (u.ops ≠ [] ∨ u.toCreate ≠ [] ∨ u.toUpdate ≠ [] ∨ u.toDelete ≠ [])) ∧
    (∀ hc hr : List Hook,
      (UnitOfWork.mk u.ops u.toCreate u.toUpdate u.toDelete hc hr).HasPending
        = u.HasPending) := by
  constructor
  · simp [UnitOfWork.HasPending, List.length_pos]
    tauto
  · intro hc hr
    simp [UnitOfWork.HasPending]

/-- C9: Clear empties the hook lists too, and the success path of Commit
calls Clear, so hooks are one-shot: after a successful commit (or an
explicit Clear) the instance holds no hooks, and a later Commit on it
invokes none of the previously registered hooks. -/
theorem C9_hooks_one_shot (u : UnitOfWork) (store : Store)
    (during : UnitOfWork)
    (h : (u.Commit store during).result = none) :
    (∀ v : UnitOfWork, v.Clear.afterCommit = [] ∧ v.Clear.afterRollback = [])
      ∧
    ((u.Commit store during).final.afterCommit = []) ∧
    ((u.Commit store during).final.afterRollback = []) ∧
    (∀ store2 : Store,
      (((u.Commit store during).final.Commit store2 emptyUoW).commitRuns = [])
        ∧
      (((u.Commit store during).final.Commit store2 emptyUoW).rollbackRuns
        = [])) := by
  rw [Commit_result_eq] at h
  rw [Commit_eq_ok u store during h]
  refine ⟨fun v => ⟨rfl, rfl⟩, rfl, rfl, fun store2 => ?_⟩
  rw [Commit_eq_ok emptyUoW store2 emptyUoW rfl]
  exact ⟨rfl, rfl⟩

/-- Witness for C9: after a successful commit with hooks registered, the
instance holds no hooks and a second commit invokes none. -/
theorem C9_hooks_one_shot_witness :
    ((UnitOfWork.mk [] [1] [] [] [⟨1, false⟩] [⟨2, false⟩]).Commit
        (fun _ => none) emptyUoW).final.afterCommit = [] ∧
    (∀ store2 : Store,
      ((((UnitOfWork.mk [] [1] [] [] [⟨1, false⟩] [⟨2, false⟩]).Commit
          (fun _ => none) emptyUoW).final.Commit store2 emptyUoW).commitRuns
        = []) ∧
      ((((UnitOfWork.mk [] [1] [] [] [⟨1, false⟩] [⟨2, false⟩]).Commit
          (fun _ => none) emptyUoW).final.Commit store2 emptyUoW).rollbackRuns
        = [])) :=
  ⟨(C9_hooks_one_shot ⟨[], [1], [], [], [⟨1, false⟩], [⟨2, false⟩]⟩
      (fun _ => none) emptyUoW (by decide)).2.1,
    (C9_hooks_one_shot ⟨[], [1], [], [], [⟨1, false⟩], [⟨2, false⟩]⟩
      (fun _ => none) emptyUoW (by decide)).2.2.2⟩

/-- C10: New always returns a UnitOfWork value and reports no error - its
result type has no error component and the open error is discarded - and
when the open failed and handed back a nil handle, the returned instance
carries root = nil, so Commit, First, PreloadFirst and AutoMigrate all hit a
nil-pointer dereference instead of surfacing the original open error. -/
theorem C10_new_discards_error (r : OpenResult) (store : Store)
    (during : UnitOfWork) :
    (New r = New ⟨r.handle, none⟩) ∧
    ((New r).root = r.handle) ∧
    ((New r).state = emptyUoW) ∧
    (r.handle = none →
      ((New r).CommitRoot store during = Run.nilPanic) ∧
      ((New r).FirstRoot = Run.nilPanic) ∧
      ((New r).PreloadFirstRoot = Run.nilPanic) ∧
      ((New r).AutoMigrateRoot = Run.nilPanic)) := by
  refine ⟨rfl, rfl, rfl, fun h => ?_⟩
  simp [New, RootedUoW.CommitRoot, RootedUoW.FirstRoot,
    RootedUoW.PreloadFirstRoot, RootedUoW.AutoMigrateRoot, h]

/-- Witness for C10: an open that failed with error 5 and returned a nil
handle. -/
theorem C10_new_discards_error_witness :
    (New ⟨none, some 5⟩ = New ⟨none, none⟩) ∧
    ((New ⟨none, some 5⟩).CommitRoot (fun _ => none) emptyUoW
      = Run.nilPanic) ∧
    ((New ⟨none, some 5⟩).AutoMigrateRoot = Run.nilPanic) :=
  ⟨(C10_new_discards_error ⟨none, some 5⟩ (fun _ => none) emptyUoW).1,
    ((C10_new_discards_error ⟨none, some 5⟩ (fun _ => none) emptyUoW).2.2.2
      rfl).1,
    ((C10_new_discards_error ⟨none, some 5⟩ (fun _ => none) emptyUoW).2.2.2
      rfl).2.2.2⟩
